import Mathlib

/-!
Verification of the ffmpeg-suite overlay/merge media pipeline.

This file gives a shallow embedding of the core algorithms of the repository
(`src/services/ffmpeg_service.py` and `src/services/merge_service.py`) and
proves, or refutes, the frozen claims about them.

Modelling conventions:
- Python text is modelled as `List Char`; `str.split(sep)` for a one-character
  separator is `splitOnChar`, `len` is `List.length`, `'\n'.join` is
  `List.intercalate ['\n']`.
- Python floats are modelled in exact rational arithmetic (`ℚ`); `int(x)` for
  the non-negative values arising here is `Int.floor` followed by `Int.toNat`
  (truncation towards zero agrees with the floor on non-negative inputs).
- Subprocess invocations are modelled by the directive (filter graph /
  argument list) the code constructs; the filesystem is modelled as the list
  of temporary files currently present, with downloads/renders supplying the
  outcome of each external call as an explicit parameter.
-/

namespace FfmpegSuite

/-! ## Python string primitives -/

/-- Models Python's `str.split(sep)` for a one-character
separator `sep`: splitting the empty string yields `[[]]`, and every
occurrence of the separator delimits a (possibly empty) chunk. -/
def splitOnChar (sep : Char) : List Char → List (List Char)
  | [] => [[]]
  | c :: cs =>
      match splitOnChar sep cs with
      | [] => [[]]
      | w :: ws => if c = sep then [] :: w :: ws else (c :: w) :: ws

/-- Characters removed by Python's `str.strip()` (ASCII whitespace). -/
def pyIsSpace (c : Char) : Bool :=
  c = ' ' || c = '\t' || c = '\n' || c = '\r' || c = '\x0b' || c = '\x0c'

/-- Models `not s.strip()` as `pyBlank s`: `s` is empty or all-whitespace. -/
def pyBlank (s : List Char) : Bool :=
  s.all pyIsSpace

theorem splitOnChar_ne_nil (sep : Char) (l : List Char) :
    splitOnChar sep l ≠ [] := by
  cases l with
  | nil => simp [splitOnChar]
  | cons c cs =>
      simp only [splitOnChar]
      cases h : splitOnChar sep cs with
      | nil => simp
      | cons w ws => by_cases hc : c = sep <;> simp [hc]

theorem splitOnChar_of_not_mem (sep : Char) (l : List Char) (h : sep ∉ l) :
    splitOnChar sep l = [l] := by
  induction l with
  | nil => rfl
  | cons c cs ih =>
      have hc : c ≠ sep := fun hcc => h (hcc ▸ List.mem_cons_self _ _)
      have hcs : sep ∉ cs := fun hm => h (List.mem_cons_of_mem _ hm)
      simp only [splitOnChar, ih hcs, if_neg hc]

theorem splitOnChar_append_sep (sep : Char) (l rest : List Char)
    (h : sep ∉ l) :
    splitOnChar sep (l ++ sep :: rest) = l :: splitOnChar sep rest := by
  induction l with
  | nil =>
      simp only [List.nil_append, splitOnChar]
      cases hr : splitOnChar sep rest with
      | nil => exact absurd hr (splitOnChar_ne_nil sep rest)
      | cons w ws => simp
  | cons c cs ih =>
      have hc : c ≠ sep := fun hcc => h (hcc ▸ List.mem_cons_self _ _)
      have hcs : sep ∉ cs := fun hm => h (List.mem_cons_of_mem _ hm)
      simp only [List.cons_append, splitOnChar, List.append_eq, ih hcs, if_neg hc]

theorem splitOnChar_all_nil (sep : Char) (l : List Char)
    (h : ∀ w ∈ splitOnChar sep l, w = []) : ∀ c ∈ l, c = sep := by
  induction l with
  | nil => intro c hc; cases hc
  | cons c cs ih =>
      intro d hd
      obtain ⟨w, ws, hsplit⟩ : ∃ w ws, splitOnChar sep cs = w :: ws := by
        cases hs : splitOnChar sep cs with
        | nil => exact absurd hs (splitOnChar_ne_nil sep cs)
        | cons w ws => exact ⟨w, ws, rfl⟩
      by_cases hc : c = sep
      · have hall : ∀ w' ∈ splitOnChar sep cs, w' = [] := by
          intro w' hw'
          apply h
          simp only [splitOnChar, hsplit, if_pos hc]
          rw [hsplit] at hw'
          exact List.mem_cons_of_mem _ hw'
        rcases List.mem_cons.1 hd with rfl | hd
        · exact hc
        · exact ih hall d hd
      · exfalso
        have hbad : (c :: w) = [] := by
          apply h
          simp only [splitOnChar, hsplit, if_neg hc]
          exact List.mem_cons_self _ _
        cases hbad

/-- Every chunk produced by `splitOnChar` is free of the separator. -/
theorem splitOnChar_sep_not_mem (sep : Char) (l : List Char) :
    ∀ w ∈ splitOnChar sep l, sep ∉ w := by
  induction l with
  | nil =>
      intro w hw
      simp only [splitOnChar, List.mem_singleton] at hw
      simp [hw]
  | cons c cs ih =>
      intro w hw
      obtain ⟨v, vs, hsplit⟩ : ∃ v vs, splitOnChar sep cs = v :: vs := by
        cases hs : splitOnChar sep cs with
        | nil => exact absurd hs (splitOnChar_ne_nil sep cs)
        | cons v vs => exact ⟨v, vs, rfl⟩
      simp only [splitOnChar, hsplit] at hw
      by_cases hc : c = sep
      · simp only [if_pos hc] at hw
        rcases List.mem_cons.1 hw with rfl | hw
        · simp
        · exact ih w (hsplit ▸ hw)
      · simp only [if_neg hc] at hw
        rcases List.mem_cons.1 hw with rfl | hw
        · intro hmem
          rcases List.mem_cons.1 hmem with hmem | hmem
          · exact hc hmem.symm
          · exact ih v (hsplit ▸ List.mem_cons_self _ _) hmem
        · exact ih w (hsplit ▸ List.mem_cons_of_mem _ hw)

/-- Every character of a chunk is a character of the split input. -/
theorem splitOnChar_chars_subset (sep : Char) (l : List Char) :
    ∀ w ∈ splitOnChar sep l, ∀ c ∈ w, c ∈ l := by
  induction l with
  | nil =>
      intro w hw
      simp only [splitOnChar, List.mem_singleton] at hw
      simp [hw]
  | cons a cs ih =>
      intro w hw
      obtain ⟨v, vs, hsplit⟩ : ∃ v vs, splitOnChar sep cs = v :: vs := by
        cases hs : splitOnChar sep cs with
        | nil => exact absurd hs (splitOnChar_ne_nil sep cs)
        | cons v vs => exact ⟨v, vs, rfl⟩
      simp only [splitOnChar, hsplit] at hw
      by_cases hc : a = sep
      · simp only [if_pos hc] at hw
        rcases List.mem_cons.1 hw with rfl | hw
        · intro c hcmem; cases hcmem
        · intro c hcmem
          exact List.mem_cons_of_mem _ (ih w (hsplit ▸ hw) c hcmem)
      · simp only [if_neg hc] at hw
        rcases List.mem_cons.1 hw with rfl | hw
        · intro c hcmem
          rcases List.mem_cons.1 hcmem with rfl | hcmem
          · exact List.mem_cons_self _ _
          · exact List.mem_cons_of_mem _
              (ih v (hsplit ▸ List.mem_cons_self _ _) c hcmem)
        · intro c hcmem
          exact List.mem_cons_of_mem _ (ih w (hsplit ▸ List.mem_cons_of_mem _ hw) c hcmem)

theorem intercalate_singleton' (sep : List Char) (l : List Char) :
    List.intercalate sep [l] = l := by
  simp [List.intercalate]

theorem intercalate_cons_cons' (sep a b : List Char) (t : List (List Char)) :
    List.intercalate sep (a :: b :: t) = a ++ sep ++ List.intercalate sep (b :: t) := by
  simp [List.intercalate, List.intersperse]

/-- Splitting the separator-joined list of chunks recovers the chunks, as
long as no chunk contains the separator and the list of chunks is nonempty. -/
theorem splitOnChar_intercalate (sep : Char) (lines : List (List Char))
    (hne : lines ≠ []) (hfree : ∀ l ∈ lines, sep ∉ l) :
    splitOnChar sep (List.intercalate [sep] lines) = lines := by
  induction lines with
  | nil => exact absurd rfl hne
  | cons l ls ih =>
      cases ls with
      | nil =>
          rw [intercalate_singleton']
          exact splitOnChar_of_not_mem sep l (hfree l (List.mem_cons_self _ _))
      | cons l' ls' =>
          rw [intercalate_cons_cons']
          have hassoc : l ++ [sep] ++ List.intercalate [sep] (l' :: ls') =
              l ++ sep :: List.intercalate [sep] (l' :: ls') := by
            rw [List.append_assoc]; rfl
          rw [hassoc,
            splitOnChar_append_sep sep l _ (hfree l (List.mem_cons_self _ _)),
            ih (by simp) (fun x hx => hfree x (List.mem_cons_of_mem _ hx))]

/-! ## TextLayoutEngine (`FFmpegService._wrap_text`, font scaling in
`add_text_overlay`) -/

/-- The greedy word-packing loop of `_wrap_text` (ffmpeg_service.py:512-530).
`current` is `current_line`; each word is tentatively appended
(`test_line = current_line + (' ' if current_line else '') + word`), a full
line is emitted when the test exceeds `maxChars` and `current_line` is
nonempty, and the remaining `current_line` is emitted at the end if nonempty. -/
def wrapWords (maxChars : ℕ) : List (List Char) → List Char → List (List Char)
  | [], current => if current = [] then [] else [current]
  | w :: ws, current =>
      let test := if current = [] then w else current ++ ' ' :: w
      if maxChars < test.length ∧ current ≠ [] then
        current :: wrapWords maxChars ws w
      else
        wrapWords maxChars ws test

/-- Wrapping of one paragraph: `words = paragraph.split(' ')` followed by the
greedy loop starting from an empty `current_line`. -/
def wrapParagraph (maxChars : ℕ) (paragraph : List Char) : List (List Char) :=
  wrapWords maxChars (splitOnChar ' ' paragraph) []

/-- The lines contributed by one paragraph of `_wrap_text`: a blank paragraph
(`not paragraph.strip()`) is kept as a single empty line, any other paragraph
is greedily wrapped. -/
def wrapGroup (maxChars : ℕ) (paragraph : List Char) : List (List Char) :=
  if pyBlank paragraph then [[]] else wrapParagraph maxChars paragraph

/-- The `wrapped_lines` list built by `_wrap_text` (ffmpeg_service.py:502-530):
the text is split on manual line breaks and each paragraph appends its lines
to the accumulator in order. -/
def wrapTextLines (maxChars : ℕ) (text : List Char) : List (List Char) :=
  (splitOnChar '\n' text).foldl (fun acc p => acc ++ wrapGroup maxChars p) []

/-- The `max_chars_per_line` computation of `_wrap_text` (ffmpeg_service.py:489-498):
`max_width_px = img_width * max_width_percent / 100`,
`avg_char_width = font_size * 0.55`,
`int(max_width_px / avg_char_width)` floored to a minimum of 10. -/
def maxCharsPerLine (fontSize imgWidth maxWidthPercent : ℕ) : ℕ :=
  let maxWidthPx : ℚ := ((imgWidth : ℚ) * (maxWidthPercent : ℚ)) / 100
  let avgCharWidth : ℚ := (fontSize : ℚ) * (11 / 20)
  let maxChars := (⌊maxWidthPx / avgCharWidth⌋).toNat
  if maxChars < 10 then 10 else maxChars

/-- The full `_wrap_text` (ffmpeg_service.py:467-532): computes `max_chars_per_line`
and returns the wrapped lines joined with newlines. -/
def wrapText (text : List Char) (fontSize imgWidth maxWidthPercent : ℕ) :
    List Char :=
  List.intercalate ['\n'] (wrapTextLines (maxCharsPerLine fontSize imgWidth maxWidthPercent) text)

/-- Font scaling in `add_text_overlay` (ffmpeg_service.py:81-90): when the
probed width is truthy (present and nonzero), the scaled size is
`int(style.font_size * (img_width / 1080))`; otherwise the base size is kept. -/
def scaledFontSize (baseSize : ℕ) (imgWidth : Option ℕ) : ℕ :=
  match imgWidth with
  | none => baseSize
  | some w =>
      if w = 0 then baseSize
      else (⌊(baseSize : ℚ) * ((w : ℚ) / 1080)⌋).toNat

/-- Estimated pixel width of a line under the `0.55 * font_size` average
glyph width used by `_wrap_text`. -/
def estimatedLineWidth (lineLen fontSize : ℕ) : ℚ :=
  (lineLen : ℚ) * ((fontSize : ℚ) * (11 / 20))

/-! ### Lemmas about the greedy wrap -/

/-- Every line emitted by the greedy loop either fits in `maxChars`
characters or is a single (overlong) word taken verbatim from the pool `S`. -/
theorem wrapWords_line_bound (maxChars : ℕ) (S : List (List Char)) :
    ∀ (ws : List (List Char)) (current : List Char),
      (∀ w ∈ ws, w ∈ S) →
      (current = [] ∨ current.length ≤ maxChars ∨ current ∈ S) →
      ∀ l ∈ wrapWords maxChars ws current,
        l.length ≤ maxChars ∨ l ∈ S := by
  intro ws
  induction ws with
  | nil =>
      intro current _ hcur l hl
      simp only [wrapWords] at hl
      by_cases hc : current = []
      · simp [hc] at hl
      · simp only [if_neg hc, List.mem_singleton] at hl
        subst hl
        rcases hcur with h | h | h
        · exact absurd h hc
        · exact Or.inl h
        · exact Or.inr h
  | cons w ws ih =>
      intro current hws hcur l hl
      have hwS : w ∈ S := hws w (List.mem_cons_self _ _)
      have hwsS : ∀ v ∈ ws, v ∈ S := fun v hv => hws v (List.mem_cons_of_mem _ hv)
      simp only [wrapWords] at hl
      by_cases hfull : maxChars <
          (if current = [] then w else current ++ ' ' :: w).length ∧ current ≠ []
      · rw [if_pos hfull] at hl
        rcases List.mem_cons.1 hl with rfl | hl
        · rcases hcur with h | h | h
          · exact absurd h hfull.2
          · exact Or.inl h
          · exact Or.inr h
        · exact ih w hwsS (Or.inr (Or.inr hwS)) l hl
      · rw [if_neg hfull] at hl
        refine ih _ hwsS ?_ l hl
        by_cases hc : current = []
        · simp only [hc, if_pos rfl]
          exact Or.inr (Or.inr hwS)
        · simp only [if_neg hc]
          rcases not_and_or.1 hfull with hlen | hne
          · rw [if_neg hc] at hlen
            exact Or.inr (Or.inl (le_of_not_lt hlen))
          · exact absurd (not_not.1 hne) hc

/-- The greedy loop emits at least one line as soon as its starting
`current_line` is nonempty or some word is nonempty. -/
theorem wrapWords_ne_nil (maxChars : ℕ) :
    ∀ (ws : List (List Char)) (current : List Char),
      (current ≠ [] ∨ ∃ w ∈ ws, w ≠ []) →
      wrapWords maxChars ws current ≠ [] := by
  intro ws
  induction ws with
  | nil =>
      intro current h
      rcases h with h | ⟨w, hw, _⟩
      · simp [wrapWords, if_neg h]
      · cases hw
  | cons w ws ih =>
      intro current h
      simp only [wrapWords]
      by_cases hfull : maxChars <
          (if current = [] then w else current ++ ' ' :: w).length ∧ current ≠ []
      · rw [if_pos hfull]; simp
      · rw [if_neg hfull]
        apply ih
        by_cases hc : current = []
        · subst hc
          simp only [if_pos rfl]
          rcases h with h | ⟨v, hv, hvne⟩
          · exact absurd rfl h
          · rcases List.mem_cons.1 hv with rfl | hv
            · exact Or.inl hvne
            · exact Or.inr ⟨v, hv, hvne⟩
        · left
          simp only [if_neg hc]
          intro hbad
          simp at hbad

/-- Every character of every line emitted by the greedy loop is either a
space or a character of one of the words in the pool `S`. -/
theorem wrapWords_chars (maxChars : ℕ) (S : List (List Char)) :
    ∀ (ws : List (List Char)) (current : List Char),
      (∀ w ∈ ws, w ∈ S) →
      (∀ c ∈ current, c = ' ' ∨ ∃ w ∈ S, c ∈ w) →
      ∀ l ∈ wrapWords maxChars ws current, ∀ c ∈ l,
        c = ' ' ∨ ∃ w ∈ S, c ∈ w := by
  intro ws
  induction ws with
  | nil =>
      intro current _ hcur l hl
      simp only [wrapWords] at hl
      by_cases hc : current = []
      · simp [hc] at hl
      · simp only [if_neg hc, List.mem_singleton] at hl
        exact hl ▸ hcur
  | cons w ws ih =>
      intro current hws hcur l hl
      have hwS : w ∈ S := hws w (List.mem_cons_self _ _)
      have hwsS : ∀ v ∈ ws, v ∈ S := fun v hv => hws v (List.mem_cons_of_mem _ hv)
      have hwchars : ∀ c ∈ w, c = ' ' ∨ ∃ v ∈ S, c ∈ v :=
        fun c hc => Or.inr ⟨w, hwS, hc⟩
      simp only [wrapWords] at hl
      by_cases hfull : maxChars <
          (if current = [] then w else current ++ ' ' :: w).length ∧ current ≠ []
      · rw [if_pos hfull] at hl
        rcases List.mem_cons.1 hl with rfl | hl
        · exact hcur
        · exact ih w hwsS hwchars l hl
      · rw [if_neg hfull] at hl
        refine ih _ hwsS ?_ l hl
        by_cases hc : current = []
        · simpa [hc] using hwchars
        · simp only [if_neg hc]
          intro c hcmem
          rcases List.mem_append.1 hcmem with hcmem | hcmem
          · exact hcur c hcmem
          · rcases List.mem_cons.1 hcmem with rfl | hcmem
            · exact Or.inl rfl
            · exact hwchars c hcmem

theorem foldl_append_eq_flatMap (g : List Char → List (List Char)) :
    ∀ (ps : List (List Char)) (acc : List (List Char)),
      ps.foldl (fun acc p => acc ++ g p) acc = acc ++ ps.flatMap g := by
  intro ps
  induction ps with
  | nil => intro acc; simp
  | cons p ps ih =>
      intro acc
      simp only [List.foldl_cons, List.flatMap_cons, ih, List.append_assoc]

/-- The `wrapped_lines` list is the in-order concatenation of each
paragraph's contributed lines. -/
theorem wrapTextLines_eq_flatMap (maxChars : ℕ) (text : List Char) :
    wrapTextLines maxChars text =
      (splitOnChar '\n' text).flatMap (wrapGroup maxChars) := by
  simpa using foldl_append_eq_flatMap (wrapGroup maxChars) (splitOnChar '\n' text) []

/-- A non-blank paragraph contributes at least one wrapped line; a blank
paragraph contributes exactly one empty line. So every paragraph contributes
a nonempty group of lines. -/
theorem wrapGroup_ne_nil (maxChars : ℕ) (p : List Char) :
    wrapGroup maxChars p ≠ [] := by
  unfold wrapGroup
  by_cases hb : pyBlank p
  · simp [hb]
  · rw [if_neg hb]
    unfold wrapParagraph
    apply wrapWords_ne_nil
    right
    by_contra hnone
    push_neg at hnone
    apply hb
    unfold pyBlank
    rw [List.all_eq_true]
    intro c hc
    have hall : ∀ w ∈ splitOnChar ' ' p, w = [] := by
      intro w hw
      by_contra hwne
      exact hwne (by simpa using hnone w hw)
    have := splitOnChar_all_nil ' ' p hall c hc
    simp [this, pyIsSpace]

/-- No wrapped line contains a newline character, provided its paragraph does
not (paragraphs come from splitting on newlines, so they never do). -/
theorem wrapGroup_no_newline (maxChars : ℕ) (p : List Char)
    (hp : '\n' ∉ p) : ∀ l ∈ wrapGroup maxChars p, '\n' ∉ l := by
  intro l hl
  unfold wrapGroup at hl
  by_cases hb : pyBlank p
  · simp only [if_pos hb, List.mem_singleton] at hl
    simp [hl]
  · rw [if_neg hb] at hl
    intro hmem
    have := wrapWords_chars maxChars (splitOnChar ' ' p)
      (splitOnChar ' ' p) [] (fun v hv => hv) (by intro c hc; cases hc)
      l hl '\n' hmem
    rcases this with h | ⟨w, hw, hcw⟩
    · exact absurd h (by decide)
    · exact hp (splitOnChar_chars_subset ' ' p w hw '\n' hcw)

theorem wrapTextLines_ne_nil (maxChars : ℕ) (text : List Char) :
    wrapTextLines maxChars text ≠ [] := by
  rw [wrapTextLines_eq_flatMap]
  obtain ⟨p, ps, hsplit⟩ : ∃ p ps, splitOnChar '\n' text = p :: ps := by
    cases hs : splitOnChar '\n' text with
    | nil => exact absurd hs (splitOnChar_ne_nil '\n' text)
    | cons p ps => exact ⟨p, ps, rfl⟩
  rw [hsplit]
  simp only [List.flatMap_cons, ne_eq, List.append_eq_nil, not_and_or]
  exact Or.inl (wrapGroup_ne_nil maxChars p)

/-- Splitting the output of `_wrap_text` on newlines recovers exactly the
`wrapped_lines` list: joining with `'\n'` loses no line structure. -/
theorem splitOnChar_wrapText (text : List Char)
    (fontSize imgWidth maxWidthPercent : ℕ) :
    splitOnChar '\n' (wrapText text fontSize imgWidth maxWidthPercent) =
      wrapTextLines (maxCharsPerLine fontSize imgWidth maxWidthPercent) text := by
  unfold wrapText
  apply splitOnChar_intercalate
  · exact wrapTextLines_ne_nil _ text
  · intro l hl
    rw [wrapTextLines_eq_flatMap] at hl
    rcases List.mem_flatMap.1 hl with ⟨p, hp, hlp⟩
    exact wrapGroup_no_newline _ p (splitOnChar_sep_not_mem '\n' text p hp) l hlp

/-! ### Arithmetic bridges for the layout formulas -/

theorem maxCharsPerLine_eq_max (fontSize imgWidth maxWidthPercent : ℕ) :
    maxCharsPerLine fontSize imgWidth maxWidthPercent =
      max 10 ((⌊(((imgWidth : ℚ) * (maxWidthPercent : ℚ)) / 100) /
        ((fontSize : ℚ) * (11 / 20))⌋).toNat) := by
  unfold maxCharsPerLine
  set x := (⌊(((imgWidth : ℚ) * (maxWidthPercent : ℚ)) / 100) /
    ((fontSize : ℚ) * (11 / 20))⌋).toNat
  by_cases h : x < 10
  · rw [if_pos h]
    omega
  · rw [if_neg h]
    omega

/-- In exact arithmetic the `max_chars_per_line` ratio is the natural-number
division `img_width * percent / (55 * font_size)`. -/
theorem maxCharsPerLine_eq_natDiv (fontSize imgWidth maxWidthPercent : ℕ)
    (hfs : 0 < fontSize) :
    maxCharsPerLine fontSize imgWidth maxWidthPercent =
      max 10 (imgWidth * maxWidthPercent / (55 * fontSize)) := by
  rw [maxCharsPerLine_eq_max]
  congr 1
  have hfsQ : (fontSize : ℚ) ≠ 0 := Nat.cast_ne_zero.2 hfs.ne'
  have hratio : (((imgWidth : ℚ) * (maxWidthPercent : ℚ)) / 100) /
      ((fontSize : ℚ) * (11 / 20)) =
      ((imgWidth * maxWidthPercent : ℕ) : ℚ) / ((55 * fontSize : ℕ) : ℚ) := by
    push_cast
    field_simp
    ring
  rw [hratio, Int.floor_toNat, Nat.floor_div_nat, Nat.floor_natCast]

/-- In exact arithmetic the scaled font size is the natural-number division
`base * width / 1080`. -/
theorem scaledFontSize_eq_natDiv (baseSize w : ℕ) (hw : 0 < w) :
    scaledFontSize baseSize (some w) = baseSize * w / 1080 := by
  simp only [scaledFontSize]
  rw [if_neg hw.ne']
  have hratio : (baseSize : ℚ) * ((w : ℚ) / 1080) =
      ((baseSize * w : ℕ) : ℚ) / ((1080 : ℕ) : ℚ) := by
    push_cast
    ring
  rw [hratio, Int.floor_toNat, Nat.floor_div_nat, Nat.floor_natCast]

/-! ## Claims C4, C5, C6 -/

/-- Claim C4, counterexample to the claimed width bound: with
`font_size = 20`, `img_width = 100` and `max_width_percent = 10`, the computed
`int(max_width_px / avg_char_width)` is `0`, so the 10-character minimum
engages (`max_chars_per_line = 10`); the single-word text `"abcdefghij"` is
kept as one 10-character line whose estimated pixel width
`10 * (0.55 * 20) = 110` exceeds `W*P/100 = 10`. -/
theorem wrap_width_bound_fails_at_floor_min :
    maxCharsPerLine 20 100 10 = 10 ∧
    wrapTextLines (maxCharsPerLine 20 100 10) (String.toList "abcdefghij") =
      [String.toList "abcdefghij"] ∧
    ¬ (estimatedLineWidth (String.toList "abcdefghij").length 20 ≤
        ((100 : ℚ) * 10) / 100) := by
  have hmc : maxCharsPerLine 20 100 10 = 10 := by
    rw [maxCharsPerLine_eq_natDiv 20 100 10 (by norm_num)]
    decide
  refine ⟨hmc, ?_, ?_⟩
  · rw [hmc]; decide
  · rw [show (String.toList "abcdefghij").length = 10 from by decide]
    unfold estimatedLineWidth
    norm_num

/-- Claim C4 (amended): for positive font size, `max_chars_per_line` equals
`floor((W*P/100) / (0.55*fs))` floored to a minimum of 10, so it is always at
least 10; every wrapped line either fits in `max_chars_per_line` characters
or is a single word of some paragraph taken verbatim; and the claimed pixel
bound `line length * 0.55*fs ≤ W*P/100` holds provided the 10-character
minimum does not overshoot the width budget (`10 * 0.55*fs ≤ W*P/100`) and no
single word is longer than `max_chars_per_line`. -/
theorem wrap_maxChars_formula_and_width_bound
    (W P fs : ℕ) (text : List Char) (hfs : 0 < fs) :
    maxCharsPerLine fs W P =
      max 10 ((⌊(((W : ℚ) * (P : ℚ)) / 100) / ((fs : ℚ) * (11 / 20))⌋).toNat)
    ∧ 10 ≤ maxCharsPerLine fs W P
    ∧ (∀ l ∈ wrapTextLines (maxCharsPerLine fs W P) text,
        l.length ≤ maxCharsPerLine fs W P ∨
          ∃ p ∈ splitOnChar '\n' text, l ∈ splitOnChar ' ' p)
    ∧ ((10 : ℚ) * ((fs : ℚ) * (11 / 20)) ≤ ((W : ℚ) * (P : ℚ)) / 100 →
        (∀ p ∈ splitOnChar '\n' text, ∀ w ∈ splitOnChar ' ' p,
          w.length ≤ maxCharsPerLine fs W P) →
        ∀ l ∈ wrapTextLines (maxCharsPerLine fs W P) text,
          estimatedLineWidth l.length fs ≤ ((W : ℚ) * (P : ℚ)) / 100) := by
  set mc := maxCharsPerLine fs W P with hmc
  have heq := maxCharsPerLine_eq_max fs W P
  have h10 : 10 ≤ mc := by rw [hmc, heq]; exact le_max_left _ _
  have hmem : ∀ l ∈ wrapTextLines mc text,
      l.length ≤ mc ∨ ∃ p ∈ splitOnChar '\n' text, l ∈ splitOnChar ' ' p := by
    intro l hl
    rw [wrapTextLines_eq_flatMap] at hl
    rcases List.mem_flatMap.1 hl with ⟨p, hp, hlp⟩
    unfold wrapGroup at hlp
    by_cases hb : pyBlank p
    · simp only [if_pos hb, List.mem_singleton] at hlp
      subst hlp
      left
      simp
    · rw [if_neg hb] at hlp
      have := wrapWords_line_bound mc (splitOnChar ' ' p)
        (splitOnChar ' ' p) [] (fun v hv => hv) (Or.inl rfl) l hlp
      rcases this with h | h
      · exact Or.inl h
      · exact Or.inr ⟨p, hp, h⟩
  refine ⟨heq, h10, hmem, ?_⟩
  intro hfloor hwords l hl
  set A : ℚ := (fs : ℚ) * (11 / 20) with hA
  set M : ℚ := ((W : ℚ) * (P : ℚ)) / 100 with hM
  have hApos : 0 < A := by
    rw [hA]
    have : (0 : ℚ) < (fs : ℚ) := by exact_mod_cast hfs
    positivity
  have hMnonneg : 0 ≤ M := by rw [hM]; positivity
  have hlen : l.length ≤ mc := by
    rcases hmem l hl with h | ⟨p, hp, hw⟩
    · exact h
    · exact hwords p hp l hw
  have hmcA : (mc : ℚ) * A ≤ M := by
    have hfq : ((⌊M / A⌋).toNat : ℚ) * A ≤ M := by
      have hnn : 0 ≤ ⌊M / A⌋ :=
        Int.floor_nonneg.2 (div_nonneg hMnonneg hApos.le)
      have hcast : ((⌊M / A⌋).toNat : ℚ) = ((⌊M / A⌋ : ℤ) : ℚ) := by
        exact_mod_cast congrArg (fun z : ℤ => (z : ℚ)) (Int.toNat_of_nonneg hnn)
      rw [hcast]
      have hle : ((⌊M / A⌋ : ℤ) : ℚ) ≤ M / A := Int.floor_le _
      calc ((⌊M / A⌋ : ℤ) : ℚ) * A ≤ (M / A) * A :=
            mul_le_mul_of_nonneg_right hle hApos.le
        _ = M := div_mul_cancel₀ M hApos.ne'
    have hmax : mc = max 10 ((⌊M / A⌋).toNat) := by rw [hmc, heq]
    rcases max_choice 10 ((⌊M / A⌋).toNat) with hch | hch
    · rw [hmax, hch]
      simpa using hfloor
    · rw [hmax, hch]
      exact hfq
  calc estimatedLineWidth l.length fs
      = (l.length : ℚ) * A := rfl
    _ ≤ (mc : ℚ) * A := by
        apply mul_le_mul_of_nonneg_right _ hApos.le
        exact_mod_cast hlen
    _ ≤ M := hmcA

/-- Witness for C4: at `W = 1080`, `P = 100`, `fs = 40` and text
`"hello world"`, the minimum does not engage, no word exceeds the limit, and
the theorem yields the concrete width bound. -/
theorem wrap_maxChars_formula_and_width_bound_witness :
    10 ≤ maxCharsPerLine 40 1080 100 ∧
    estimatedLineWidth (String.toList "hello world").length 40 ≤
      ((1080 : ℚ) * (100 : ℚ)) / 100 := by
  have hmc : maxCharsPerLine 40 1080 100 = 49 := by
    rw [maxCharsPerLine_eq_natDiv 40 1080 100 (by norm_num)]
    decide
  have h := wrap_maxChars_formula_and_width_bound 1080 100 40
    (String.toList "hello world") (by norm_num)
  refine ⟨h.2.1, h.2.2.2 (by norm_num) ?_ _ ?_⟩
  · simp only [hmc]
    decide
  · simp only [hmc]
    decide

/-- Claim C5: with a truthy probed width, the rendering font size is
`int(base * W / 1080)`; with an unknown width the base size is used
unchanged; scaling is monotone in the width, and doubling the width doubles
the scaled size up to the integer truncation (exactly `2s` or `2s + 1`). -/
theorem scaledFontSize_floor_linear_monotonic (b w : ℕ) (hw : 0 < w) :
    scaledFontSize b (some w) = (⌊((b : ℚ) * (w : ℚ)) / 1080⌋).toNat
    ∧ scaledFontSize b none = b
    ∧ (∀ w', w ≤ w' → scaledFontSize b (some w) ≤ scaledFontSize b (some w'))
    ∧ (scaledFontSize b (some (2 * w)) = 2 * scaledFontSize b (some w) ∨
        scaledFontSize b (some (2 * w)) = 2 * scaledFontSize b (some w) + 1) := by
  have hbridge : ∀ v : ℕ, 0 < v →
      (⌊((b : ℚ) * (v : ℚ)) / 1080⌋).toNat = b * v / 1080 := by
    intro v _
    have hr : ((b : ℚ) * (v : ℚ)) / 1080 =
        ((b * v : ℕ) : ℚ) / ((1080 : ℕ) : ℚ) := by push_cast; ring
    rw [hr, Int.floor_toNat, Nat.floor_div_nat, Nat.floor_natCast]
  refine ⟨?_, rfl, ?_, ?_⟩
  · rw [scaledFontSize_eq_natDiv b w hw, hbridge w hw]
  · intro w' hww'
    have hw' : 0 < w' := lt_of_lt_of_le hw hww'
    rw [scaledFontSize_eq_natDiv b w hw, scaledFontSize_eq_natDiv b w' hw']
    exact Nat.div_le_div_right (Nat.mul_le_mul_left _ hww')
  · have h2w : 0 < 2 * w := by omega
    rw [scaledFontSize_eq_natDiv b w hw, scaledFontSize_eq_natDiv b _ h2w]
    have : b * (2 * w) = 2 * (b * w) := by ring
    rw [this]
    omega

/-- Witness for C5 at `base = 40`, `w = 720`. -/
theorem scaledFontSize_floor_linear_monotonic_witness :
    scaledFontSize 40 (some 720) = (⌊((40 : ℚ) * (720 : ℚ)) / 1080⌋).toNat ∧
    scaledFontSize 40 none = 40 := by
  have h := scaledFontSize_floor_linear_monotonic 40 720 (by decide)
  exact ⟨h.1, h.2.1⟩

/-- Claim C6: manual line breaks are hard paragraph boundaries — splitting
the wrapped output on newlines yields exactly the in-order concatenation of
each input paragraph's wrapped lines (so paragraphs are never reordered and
their count is preserved: one nonempty group per paragraph), and blank
paragraphs are kept as single empty lines. -/
theorem wrapText_preserves_paragraphs (text : List Char) (fs W P : ℕ) :
    splitOnChar '\n' (wrapText text fs W P) =
      (splitOnChar '\n' text).flatMap (wrapGroup (maxCharsPerLine fs W P))
    ∧ ((splitOnChar '\n' text).map (wrapGroup (maxCharsPerLine fs W P))).length =
        (splitOnChar '\n' text).length
    ∧ (∀ p ∈ splitOnChar '\n' text, wrapGroup (maxCharsPerLine fs W P) p ≠ [])
    ∧ (∀ p ∈ splitOnChar '\n' text, pyBlank p = true →
        wrapGroup (maxCharsPerLine fs W P) p = [[]]) := by
  refine ⟨?_, List.length_map _ _, fun p _ => wrapGroup_ne_nil _ p,
    fun p _ hb => by simp [wrapGroup, hb]⟩
  rw [splitOnChar_wrapText, wrapTextLines_eq_flatMap]

/-- Witness for C6 at text `"ab cd\n\nef"` (three paragraphs, the middle one
empty). -/
theorem wrapText_preserves_paragraphs_witness :
    splitOnChar '\n' (wrapText (String.toList "ab cd\n\nef") 40 1080 100) =
      (splitOnChar '\n' (String.toList "ab cd\n\nef")).flatMap
        (wrapGroup (maxCharsPerLine 40 1080 100))
    ∧ wrapGroup (maxCharsPerLine 40 1080 100) (String.toList "ef") ≠ []
    ∧ wrapGroup (maxCharsPerLine 40 1080 100) [] = [[]] := by
  have h := wrapText_preserves_paragraphs (String.toList "ab cd\n\nef") 40 1080 100
  exact ⟨h.1, h.2.2.1 _ (by decide), h.2.2.2 [] (by decide) (by decide)⟩

/-! ## StyleResolver and FilterBuilder
(`FFmpegService._apply_overrides`, `_calculate_position`, `_convert_color`,
`_build_drawtext_filter`) -/

/-- The resolved style value (`TextStyle` of `config.py`, whose fields are
pinned by their uses in `ffmpeg_service.py` and by the template schema of
`models/schemas.py`). -/
structure TextStyle where
  font_path : String
  font_size : ℕ
  text_color : String
  border_width : ℕ
  border_color : String
  shadow_x : ℤ
  shadow_y : ℤ
  shadow_color : String
  position : String
  background_enabled : Bool
  background_color : String
  background_opacity : ℚ
  text_opacity : ℚ
  alignment : String
  max_text_width_percent : ℕ
  line_spacing : ℤ
deriving DecidableEq

/-- The `TextOverrideOptions` schema of `models/schemas.py`: a sparse partial style;
`model_dump(exclude_none=True)` keeps exactly the `some` fields. -/
structure TextOverrideOptions where
  font_family : Option String := none
  font_weight : Option ℕ := none
  font_size : Option ℕ := none
  text_color : Option String := none
  border_width : Option ℕ := none
  border_color : Option String := none
  shadow_x : Option ℤ := none
  shadow_y : Option ℤ := none
  shadow_color : Option String := none
  background_enabled : Option Bool := none
  background_color : Option String := none
  background_opacity : Option ℚ := none
  text_opacity : Option ℚ := none
  position : Option String := none
  custom_x : Option ℕ := none
  custom_y : Option ℕ := none
  alignment : Option String := none
  max_text_width_percent : Option ℕ := none
  line_spacing : Option ℤ := none
deriving DecidableEq

namespace Config

/-- Modelled from the spec: `config.py` is not under `src/`; the font asset
constants referenced by `_apply_overrides` are opaque distinct paths
(spec §2/§3: weight < 450 selects a lighter-weight asset, otherwise a
semibold asset; the deprecated family flag selects between a bold and a
regular asset). -/
def TIKTOK_SANS_MEDIUM : String := "fonts/TikTokSans-Medium.ttf"

def TIKTOK_SANS_SEMIBOLD : String := "fonts/TikTokSans-SemiBold.ttf"

def INTER_BOLD : String := "fonts/Inter-Bold.ttf"

def INTER_REGULAR : String := "fonts/Inter-Regular.ttf"

end Config

/-- Translation of `FFmpegService._apply_overrides` (ffmpeg_service.py:185-213): a present
`font_weight` selects the font asset (< 450 medium, otherwise semibold),
else a present deprecated `font_family` selects bold/regular; every other
present override field replaces the corresponding style field in place. -/
def applyOverrides (style : TextStyle) (ov : TextOverrideOptions) : TextStyle :=
  let style :=
    match ov.font_weight with
    | some w =>
        { style with font_path :=
            if w < 450 then Config.TIKTOK_SANS_MEDIUM else Config.TIKTOK_SANS_SEMIBOLD }
    | none =>
        match ov.font_family with
        | some fam =>
            { style with font_path :=
                if fam = "bold" then Config.INTER_BOLD else Config.INTER_REGULAR }
        | none => style
  { style with
    font_size := ov.font_size.getD style.font_size
    text_color := ov.text_color.getD style.text_color
    border_width := ov.border_width.getD style.border_width
    border_color := ov.border_color.getD style.border_color
    shadow_x := ov.shadow_x.getD style.shadow_x
    shadow_y := ov.shadow_y.getD style.shadow_y
    shadow_color := ov.shadow_color.getD style.shadow_color
    background_enabled := ov.background_enabled.getD style.background_enabled
    background_color := ov.background_color.getD style.background_color
    background_opacity := ov.background_opacity.getD style.background_opacity
    text_opacity := ov.text_opacity.getD style.text_opacity
    position := ov.position.getD style.position
    alignment := ov.alignment.getD style.alignment
    max_text_width_percent := ov.max_text_width_percent.getD style.max_text_width_percent
    line_spacing := ov.line_spacing.getD style.line_spacing }

/-- Modelled from the spec: `config.py`'s template store and `get_template`
are not under `src/`. Per spec §4.1 ("No side effects") and §3
("immutable-once-resolved"), `get_template` hands the resolver a fresh copy
of the stored template, so the in-place attribute assignment performed by
`_apply_overrides` mutates only that copy; the store itself is a pure map
from names to styles, returned unchanged by resolution. Overrides are
applied exactly when an override object is supplied
(`add_text_overlay`, ffmpeg_service.py:70-74). -/
def resolveStyle (store : String → Option TextStyle) (name : String)
    (ov : Option TextOverrideOptions) :
    Option TextStyle × (String → Option TextStyle) :=
  match store name with
  | none => (none, store)
  | some t =>
      match ov with
      | some o => (some (applyOverrides t o), store)
      | none => (some t, store)

/-- The nine named position presets of `_calculate_position`
(ffmpeg_service.py:327-338). -/
def positionPresets (p : String) : Option (String × String) :=
  if p = "center" then some ("(w-text_w)/2", "(h-text_h)/2")
  else if p = "top-left" then some ("10", "10")
  else if p = "top-right" then some ("w-text_w-10", "10")
  else if p = "top-center" then some ("(w-text_w)/2", "10")
  else if p = "bottom-left" then some ("10", "h-text_h-10")
  else if p = "bottom-right" then some ("w-text_w-10", "h-text_h-10")
  else if p = "bottom-center" then some ("(w-text_w)/2", "h-text_h-10")
  else if p = "middle-left" then some ("10", "(h-text_h)/2")
  else if p = "middle-right" then some ("w-text_w-10", "(h-text_h)/2")
  else none

def centerCoords : String × String := ("(w-text_w)/2", "(h-text_h)/2")

/-- The effective position of `_calculate_position`
(ffmpeg_service.py:322-325): a present override position supersedes the
style position. -/
def effectivePosition (style : TextStyle) (ov : Option TextOverrideOptions) :
    String :=
  match ov with
  | some o => o.position.getD style.position
  | none => style.position

/-- Translation of `FFmpegService._calculate_position` (ffmpeg_service.py:317-344): a
"custom" position with an override carrying both explicit coordinates yields
them; everything else falls back to
`positions.get(position, positions["center"])`. -/
def calculatePosition (style : TextStyle) (ov : Option TextOverrideOptions) :
    String × String :=
  let position := effectivePosition style ov
  if position = "custom" then
    match ov with
    | some o =>
        match o.custom_x, o.custom_y with
        | some x, some y => (toString x, toString y)
        | _, _ => (positionPresets position).getD centerCoords
    | none => (positionPresets position).getD centerCoords
  else (positionPresets position).getD centerCoords

/-- Translation of `FFmpegService._convert_color` (ffmpeg_service.py:346-374): named colors
through a fixed table, `#`-prefixed hex re-prefixed with `0x`, anything else
defaults to white. -/
def convertColor (color : String) : String :=
  let c := color.toLower
  if c = "white" then "0xFFFFFF"
  else if c = "black" then "0x000000"
  else if c = "red" then "0xFF0000"
  else if c = "green" then "0x00FF00"
  else if c = "blue" then "0x0000FF"
  else if c = "yellow" then "0xFFFF00"
  else if c = "cyan" then "0x00FFFF"
  else if c = "magenta" then "0xFF00FF"
  else if c = "orange" then "0xFFA500"
  else if c = "purple" then "0x800080"
  else if c = "pink" then "0xFFC0CB"
  else if c = "gray" then "0x808080"
  else if c = "grey" then "0x808080"
  else if color.startsWith "#" then "0x" ++ color.drop 1
  else "0xFFFFFF"

/-- The arithmetic expressions ffmpeg evaluates inside a drawtext `alpha`
option; `_build_drawtext_filter` only ever emits `if(lt(t,cutoff),1,0)`. -/
inductive FExpr where
  | const (q : ℚ)
  | tvar
  | lt (a b : FExpr)
  | ifExpr (c a b : FExpr)
deriving DecidableEq

/-- ffmpeg expression semantics at time `t`: `lt(a,b)` is `1` when `a < b`
else `0`, and `if(c,a,b)` takes `a` exactly when `c` is nonzero. -/
def evalF (t : ℚ) : FExpr → ℚ
  | .const q => q
  | .tvar => t
  | .lt a b => if evalF t a < evalF t b then 1 else 0
  | .ifExpr c a b => if evalF t c ≠ 0 then evalF t a else evalF t b

/-- The alpha expression string `if(lt(t,CUTOFF),1,0)` built at
ffmpeg_service.py:308-311. -/
def alphaExpr (cutoff : ℚ) : FExpr :=
  .ifExpr (.lt .tvar (.const cutoff)) (.const 1) (.const 0)

/-- One drawtext filter parameter, mirroring each `filter_params.append`
of `_build_drawtext_filter`. -/
inductive DrawtextParam where
  | fontfile (path : String)
  | textfile (path : String)
  | fontsize (size : ℕ)
  | fontcolor (color : String) (opacity : ℚ)
  | xPos (x : String)
  | yPos (y : String)
  | borderw (w : ℕ)
  | bordercolor (c : String)
  | shadowx (x : ℤ)
  | shadowy (y : ℤ)
  | shadowcolor (c : String) (opacity : ℚ)
  | box
  | boxcolor (c : String) (opacity : ℚ)
  | boxborderw (w : ℕ)
  | textAlign (a : String)
  | lineSpacing (s : ℤ)
  | alpha (e : FExpr)
deriving DecidableEq

/-- The alignment single-letter table of ffmpeg_service.py:293 (the schema
validates alignment to exactly these three values). -/
def alignmentMap (a : String) : Option String :=
  if a = "left" then some "L"
  else if a = "center" then some "C"
  else if a = "right" then some "R"
  else none

/-- The text-alignment parameters appended at ffmpeg_service.py:290-297: an
explicit override alignment wins, else center position defaults to centered
alignment. -/
def alignParams (style : TextStyle) (ov : Option TextOverrideOptions) :
    List DrawtextParam :=
  match ov with
  | some o =>
      match o.alignment with
      | some a =>
          match alignmentMap a with
          | some m => [.textAlign m]
          | none => []
      | none => if style.position = "center" then [.textAlign "C"] else []
  | none => if style.position = "center" then [.textAlign "C"] else []

/-- All parameters of `_build_drawtext_filter` except the optional alpha
expression (ffmpeg_service.py:263-301). -/
def baseParams (style : TextStyle) (ov : Option TextOverrideOptions)
    (scaledSize : Option ℕ) (textfilePath : String) : List DrawtextParam :=
  let xy := calculatePosition style ov
  [DrawtextParam.fontfile style.font_path,
   DrawtextParam.textfile textfilePath,
   DrawtextParam.fontsize (scaledSize.getD style.font_size),
   DrawtextParam.fontcolor (convertColor style.text_color) style.text_opacity,
   DrawtextParam.xPos xy.1,
   DrawtextParam.yPos xy.2]
  ++ (if 0 < style.border_width then
        [DrawtextParam.borderw style.border_width,
         DrawtextParam.bordercolor (convertColor style.border_color)]
      else [])
  ++ (if style.shadow_x ≠ 0 ∨ style.shadow_y ≠ 0 then
        [DrawtextParam.shadowx style.shadow_x,
         DrawtextParam.shadowy style.shadow_y,
         DrawtextParam.shadowcolor (convertColor style.shadow_color) (7 / 10)]
      else [])
  ++ (if style.background_enabled then
        [DrawtextParam.box,
         DrawtextParam.boxcolor (convertColor style.background_color)
           style.background_opacity,
         DrawtextParam.boxborderw 5]
      else [])
  ++ alignParams style ov
  ++ [DrawtextParam.lineSpacing
        (match ov with
         | some o => o.line_spacing.getD style.line_spacing
         | none => style.line_spacing)]

/-- Translation of `FFmpegService._build_drawtext_filter` (ffmpeg_service.py:216-315): the
alpha expression `if(lt(t, duration - fade_out_duration), 1, 0)` is appended
exactly when both a fade-out duration and a video duration are supplied. -/
def buildDrawtextFilter (style : TextStyle) (ov : Option TextOverrideOptions)
    (scaledSize : Option ℕ) (textfilePath : String)
    (fadeOutDuration videoDuration : Option ℚ) : List DrawtextParam :=
  baseParams style ov scaledSize textfilePath ++
    (match fadeOutDuration, videoDuration with
     | some f, some d => [.alpha (alphaExpr (d - f))]
     | _, _ => [])

/-- The fade arguments `add_text_overlay` passes to the filter builder
(ffmpeg_service.py:109-131): the pair
`(fade_out_duration if apply_fade_out else None,
video_duration if apply_fade_out else None)`, where `apply_fade_out` is
cleared when the probed duration is absent or unparsable. -/
def fadeArgs (applyFadeOut : Bool) (fadeOutDuration : ℚ)
    (probedDuration : Option ℚ) : Option ℚ × Option ℚ :=
  match probedDuration, applyFadeOut with
  | some d, true => (some fadeOutDuration, some d)
  | _, _ => (none, none)

/-- Number of alpha parameters in a drawtext directive. -/
def countAlpha (ps : List DrawtextParam) : ℕ :=
  ps.countP (fun p => match p with | .alpha _ => true | _ => false)

theorem countAlpha_alignParams (style : TextStyle)
    (ov : Option TextOverrideOptions) :
    countAlpha (alignParams style ov) = 0 := by
  unfold countAlpha alignParams
  repeat' split
  all_goals rfl

theorem countAlpha_baseParams (style : TextStyle)
    (ov : Option TextOverrideOptions) (scaledSize : Option ℕ)
    (textfilePath : String) :
    countAlpha (baseParams style ov scaledSize textfilePath) = 0 := by
  have halign := countAlpha_alignParams style ov
  unfold countAlpha at halign ⊢
  unfold baseParams
  simp only [List.countP_append, halign]
  split_ifs <;> simp [List.countP_cons, List.countP_nil]

theorem getD_getD {α : Type} (o : Option α) (x : α) :
    o.getD (o.getD x) = o.getD x := by
  cases o <;> rfl

/-- A concrete style value used by witnesses (field values as in the
repository's default template schema). -/
def sampleStyle : TextStyle :=
  { font_path := "fonts/TikTokSans-SemiBold.ttf"
    font_size := 64
    text_color := "white"
    border_width := 2
    border_color := "black"
    shadow_x := 2
    shadow_y := 2
    shadow_color := "black"
    position := "center"
    background_enabled := false
    background_color := "black"
    background_opacity := 1 / 2
    text_opacity := 1
    alignment := "center"
    max_text_width_percent := 80
    line_spacing := -8 }

/-- A concrete override set requesting a custom position but supplying only
the x coordinate. -/
def sampleOverride : TextOverrideOptions :=
  { position := some "custom", custom_x := some 5 }

/-! ## Claims C7, C9, C10 -/

/-- Claim C7: when both a fade-out lead time `f` and a probed duration `d`
are supplied, the drawtext directive carries exactly one alpha expression,
namely `if(lt(t, d - f), 1, 0)`, whose semantics is a step function: fully
opaque (`1`) for every `t` strictly before `d - f` and fully transparent
(`0`) at and after it — not a gradual interpolation; and when the media
duration cannot be determined, `add_text_overlay` clears the fade flag and
the directive contains no alpha expression at all. -/
theorem fadeOut_alpha_step_function (style : TextStyle)
    (ov : Option TextOverrideOptions) (scaledSize : Option ℕ) (tf : String)
    (f d : ℚ) :
    buildDrawtextFilter style ov scaledSize tf (some f) (some d) =
      baseParams style ov scaledSize tf ++ [.alpha (alphaExpr (d - f))]
    ∧ countAlpha (buildDrawtextFilter style ov scaledSize tf (some f) (some d)) = 1
    ∧ (∀ t : ℚ, t < d - f → evalF t (alphaExpr (d - f)) = 1)
    ∧ (∀ t : ℚ, d - f ≤ t → evalF t (alphaExpr (d - f)) = 0)
    ∧ fadeArgs true f none = (none, none)
    ∧ countAlpha (buildDrawtextFilter style ov scaledSize tf none none) = 0 := by
  have hb := countAlpha_baseParams style ov scaledSize tf
  refine ⟨rfl, ?_, ?_, ?_, rfl, ?_⟩
  · unfold countAlpha at hb ⊢
    unfold buildDrawtextFilter
    simp [List.countP_append, hb, List.countP_cons]
  · intro t ht
    simp [alphaExpr, evalF, ht]
  · intro t ht
    have hnot : ¬ t < d - f := not_lt.2 ht
    simp [alphaExpr, evalF, hnot]
  · have heq : buildDrawtextFilter style ov scaledSize tf none none =
        baseParams style ov scaledSize tf := by
      simp [buildDrawtextFilter]
    rw [heq]
    exact hb

/-- Witness for C7 at `sampleStyle`, fade lead `2.5`, duration `10`:
there is exactly one alpha parameter, the text is opaque at `t = 7` and
transparent at `t = 8`. -/
theorem fadeOut_alpha_step_function_witness :
    countAlpha (buildDrawtextFilter sampleStyle none none "overlay.txt"
      (some (5 / 2)) (some 10)) = 1
    ∧ evalF 7 (alphaExpr (10 - 5 / 2)) = 1
    ∧ evalF 8 (alphaExpr (10 - 5 / 2)) = 0 := by
  have h := fadeOut_alpha_step_function sampleStyle none none "overlay.txt"
    (5 / 2) 10
  exact ⟨h.2.1, h.2.2.1 7 (by norm_num), h.2.2.2.1 8 (by norm_num)⟩

/-- Claim C9: resolution never mutates the template store (spec-modelled:
`get_template` returns a fresh copy), so resolving the same (template,
override) pair twice yields bit-identical descriptors — and even under
in-place mutation of the resolved value, re-applying the same override set
is the identity; override application is field-by-field replacement of
exactly the present fields, with `font_weight` taking precedence over the
deprecated `font_family` for the font asset. -/
theorem resolveStyle_idempotent_fieldwise
    (store : String → Option TextStyle) (name : String)
    (ov : Option TextOverrideOptions) (st : TextStyle)
    (o : TextOverrideOptions) :
    (resolveStyle store name ov).2 = store
    ∧ (resolveStyle ((resolveStyle store name ov).2) name ov).1 =
        (resolveStyle store name ov).1
    ∧ applyOverrides (applyOverrides st o) o = applyOverrides st o
    ∧ (applyOverrides st o).font_size = o.font_size.getD st.font_size
    ∧ (applyOverrides st o).text_color = o.text_color.getD st.text_color
    ∧ (applyOverrides st o).border_width = o.border_width.getD st.border_width
    ∧ (applyOverrides st o).border_color = o.border_color.getD st.border_color
    ∧ (applyOverrides st o).shadow_x = o.shadow_x.getD st.shadow_x
    ∧ (applyOverrides st o).shadow_y = o.shadow_y.getD st.shadow_y
    ∧ (applyOverrides st o).shadow_color = o.shadow_color.getD st.shadow_color
    ∧ (applyOverrides st o).background_enabled =
        o.background_enabled.getD st.background_enabled
    ∧ (applyOverrides st o).background_color =
        o.background_color.getD st.background_color
    ∧ (applyOverrides st o).background_opacity =
        o.background_opacity.getD st.background_opacity
    ∧ (applyOverrides st o).text_opacity = o.text_opacity.getD st.text_opacity
    ∧ (applyOverrides st o).position = o.position.getD st.position
    ∧ (applyOverrides st o).alignment = o.alignment.getD st.alignment
    ∧ (applyOverrides st o).max_text_width_percent =
        o.max_text_width_percent.getD st.max_text_width_percent
    ∧ (applyOverrides st o).line_spacing = o.line_spacing.getD st.line_spacing
    ∧ (applyOverrides st o).font_path =
        (match o.font_weight, o.font_family with
         | some w, _ =>
             if w < 450 then Config.TIKTOK_SANS_MEDIUM
             else Config.TIKTOK_SANS_SEMIBOLD
         | none, some fam =>
             if fam = "bold" then Config.INTER_BOLD else Config.INTER_REGULAR
         | none, none => st.font_path) := by
  have hstore : (resolveStyle store name ov).2 = store := by
    unfold resolveStyle
    repeat' split
    all_goals rfl
  refine ⟨hstore, by rw [hstore], ?_⟩
  unfold applyOverrides
  cases hw : o.font_weight <;> cases hf : o.font_family <;>
    simp [getD_getD]

/-- A concrete single-template store backing the C9 witness. -/
def sampleStore : String → Option TextStyle :=
  fun n => if n = "default" then some sampleStyle else none

/-- Witness for C9 at a concrete store, template and override set. -/
theorem resolveStyle_idempotent_fieldwise_witness :
    (resolveStyle sampleStore "default" (some sampleOverride)).2 = sampleStore
    ∧ (resolveStyle ((resolveStyle sampleStore "default"
          (some sampleOverride)).2) "default" (some sampleOverride)).1 =
        (resolveStyle sampleStore "default" (some sampleOverride)).1
    ∧ applyOverrides (applyOverrides sampleStyle sampleOverride)
          sampleOverride =
        applyOverrides sampleStyle sampleOverride := by
  have h := resolveStyle_idempotent_fieldwise sampleStore "default"
    (some sampleOverride) sampleStyle sampleOverride
  exact ⟨h.1, h.2.1, h.2.2.1⟩

/-- Claim C10: `_calculate_position` is a total function and silently falls
back to the "center" preset whenever the effective position is "custom" but
the override set is absent or lacks either custom coordinate, and whenever
the effective position is not one of the nine named presets (nor a
fully-specified "custom"). -/
theorem calculatePosition_custom_fallbacks (style : TextStyle)
    (o : TextOverrideOptions) (p : String) :
    (effectivePosition style (some o) = "custom" →
      o.custom_x = none ∨ o.custom_y = none →
      calculatePosition style (some o) = centerCoords)
    ∧ (style.position = "custom" → calculatePosition style none = centerCoords)
    ∧ (effectivePosition style (some o) = p → positionPresets p = none →
        p ≠ "custom" → calculatePosition style (some o) = centerCoords)
    ∧ (style.position = p → positionPresets p = none → p ≠ "custom" →
        calculatePosition style none = centerCoords) := by
  refine ⟨?_, ?_, ?_, ?_⟩
  · intro hpos hxy
    unfold calculatePosition
    simp only [hpos, if_pos rfl]
    rcases hxy with hx | hy
    · rw [hx]
      rcases o.custom_y with _ | y <;> simp [positionPresets, centerCoords]
    · rw [hy]
      rcases o.custom_x with _ | x <;> simp [positionPresets, centerCoords]
  · intro hpos
    unfold calculatePosition effectivePosition
    simp only [hpos, if_pos rfl]
    simp [positionPresets, centerCoords]
  · intro hpos hnone hnc
    unfold calculatePosition
    rw [hpos, if_neg hnc, hnone]
    rfl
  · intro hpos hnone hnc
    unfold calculatePosition effectivePosition
    rw [hpos, if_neg hnc, hnone]
    rfl

/-- Witness for C10: a "custom" position with a missing y coordinate and an
unknown position name "diagonal" both resolve to the center coordinates. -/
theorem calculatePosition_custom_fallbacks_witness :
    calculatePosition sampleStyle (some sampleOverride) = centerCoords
    ∧ calculatePosition { sampleStyle with position := "diagonal" } none =
        centerCoords := by
  have h1 := calculatePosition_custom_fallbacks sampleStyle sampleOverride
    "diagonal"
  have h2 := calculatePosition_custom_fallbacks
    { sampleStyle with position := "diagonal" } sampleOverride "diagonal"
  exact ⟨h1.1 rfl (Or.inr rfl),
    h2.2.2.2 rfl (by decide) (by decide)⟩

/-! ## Trimming (`FFmpegService.trim_video`, ffmpeg_service.py:534-603) -/

/-- The trim decision of `trim_video`: `None` models the no-op branch
(`target_duration >= original_duration`), otherwise the `(-ss, -to)` window
per trim mode — `"start"` drops `D - d` from the front, `"end"` from the
back, anything else (the `"both"` default) splits `D - d` equally. -/
def trimInterval (originalDuration targetDuration : ℚ) (trimMode : String) :
    Option (ℚ × ℚ) :=
  if originalDuration ≤ targetDuration then none
  else
    let trimTotal := originalDuration - targetDuration
    if trimMode = "start" then some (trimTotal, originalDuration)
    else if trimMode = "end" then some (0, targetDuration)
    else some (trimTotal / 2, originalDuration - trimTotal / 2)

/-- The ffmpeg argument list built by `trim_video` (ffmpeg_service.py:578-588);
`-an` drops audio from the trimmed output. -/
def trimArgs (input output : String) (startTime endTime : ℚ) : List String :=
  ["ffmpeg", "-y", "-i", input, "-ss", toString startTime, "-to",
   toString endTime, "-c:v", "libx264", "-preset", "fast", "-crf", "18",
   "-an", output]

/-! ## Concatenation directive (`FFmpegService.merge_videos`,
ffmpeg_service.py:605-708) -/

/-- One chain of the `-filter_complex` graph. `merge_videos` only ever emits
per-input normalization chains (`[i:v]fps=30,format=yuv420p[vi]`) and the
final video-only concat (`concat=n=N:v=1:a=0[v]`); the `silentAudio`
constructor expresses the spec's notion of a synthesized silent-audio
segment (e.g. an `anullsrc` source of a given duration) so that its absence
from the built directive can be stated. -/
inductive FilterChain where
  | normalize (inputIndex : ℕ)
  | concat (n v a : ℕ)
  | silentAudio (duration : ℚ)
deriving DecidableEq

structure ConcatDirective where
  inputs : List String
  filterComplex : List FilterChain
  maps : List String
deriving DecidableEq

inductive MergeVideosError where
  | tooFewClips
  | inputNotFound (path : String)
deriving DecidableEq

/-- The directive `merge_videos` builds for its inputs
(ffmpeg_service.py:634-665): one normalization chain per input, a single
`concat` with `n = len(input_paths)`, `v = 1`, `a = 0`, and only the video
stream `[v]` mapped. -/
def mergeDirective (inputPaths : List String) : ConcatDirective :=
  { inputs := inputPaths
    filterComplex :=
      ((List.range inputPaths.length).map FilterChain.normalize) ++
        [FilterChain.concat inputPaths.length 1 0]
    maps := ["[v]"] }

/-- Translation of `FFmpegService.merge_videos` up to the subprocess call
(ffmpeg_service.py:623-665): fewer than two inputs is an error, a missing
input file is an error, otherwise the concat directive is built. -/
def mergeVideos (fileExists : String → Bool) (inputPaths : List String) :
    Except MergeVideosError ConcatDirective :=
  if inputPaths.length < 2 then .error .tooFewClips
  else
    match inputPaths.find? (fun p => ! fileExists p) with
    | some p => .error (.inputNotFound p)
    | none => .ok (mergeDirective inputPaths)

/-- Number of silent-audio segments synthesized by a directive. -/
def countSilentAudio (d : ConcatDirective) : ℕ :=
  d.filterComplex.countP
    (fun c => match c with | .silentAudio _ => true | _ => false)

def allFilesExist : String → Bool := fun _ => true

/-! ## ClipPipelineOrchestrator (`MergeService`, merge_service.py) -/

structure ClipConfig where
  url : String
  text : String
deriving DecidableEq

inductive MergeReqError where
  | tooFewClips
  | tooManyClips
  | urlRequired (clipNumber : ℕ)
  | textRequired (clipNumber : ℕ)
  | textTooLong (clipNumber : ℕ)
  | downloadFailed (msg : String)
  | overlayFailed (msg : String)
  | mergeFailed (msg : String)
deriving DecidableEq

/-- The per-clip loop of `validate_merge_request`
(merge_service.py:164-174): the first clip with a falsy url, falsy text or
overlong text fails with its 1-based clip number. -/
def findClipConfigError : ℕ → List ClipConfig → Option MergeReqError
  | _, [] => none
  | i, c :: cs =>
      if c.url = "" then some (.urlRequired (i + 1))
      else if c.text = "" then some (.textRequired (i + 1))
      else if 500 < c.text.length then some (.textTooLong (i + 1))
      else findClipConfigError (i + 1) cs

/-- Translation of `MergeService.validate_merge_request` (merge_service.py:145-176). -/
def validateMergeRequest (maxClips : ℕ) (configs : List ClipConfig) :
    Option MergeReqError :=
  if configs.length < 2 then some .tooFewClips
  else if maxClips < configs.length then some .tooManyClips
  else findClipConfigError 0 configs

/-- The files present in the temp directory after the download tasks ran:
each successful `download_from_url` task wrote its file. When some task
fails, `asyncio.gather` (merge_service.py:46, no `return_exceptions`)
re-raises that failure and discards the successful results — the files of
the successful tasks stay on disk but their paths are lost to the caller. -/
def downloadedFiles (outcomes : List (Except String String)) : List String :=
  outcomes.filterMap (fun o => o.toOption)

/-- The download error surfaced by `download_clips` (merge_service.py:45-51):
the message of the failing task, wrapped by the orchestrator. (Completion
order is modelled as list order; which failing task wins does not matter for
the claims, since no task's message carries a clip index.) -/
def firstDownloadError (outcomes : List (Except String String)) :
    Option String :=
  outcomes.findSome? (fun o => match o with | .error e => some e | .ok _ => none)

/-- The overlay loop of `apply_overlays_to_clips` (merge_service.py:71-104):
clips are processed strictly in order, each success appends its output path,
and the first failure stops the loop; returns the completed overlay outputs
and the error, if any. -/
def overlayLoop : List (Except String String) → List String →
    List String × Option String
  | [], acc => (acc, none)
  | .ok o :: rest, acc => overlayLoop rest (acc ++ [o])
  | .error e :: _, acc => (acc, some e)

/-- The effect of `cleanup_files` (merge_service.py:178-192) applied to a temp-directory
state: every listed path that exists is removed. -/
def cleanupFiles (state : List String) (paths : List String) : List String :=
  state.filter (fun f => ! paths.contains f)

/-- Temp-directory contents after `k` iterations of the overlay loop: the
loop body of `apply_overlays_to_clips` only appends overlay outputs and
deletes nothing, so every downloaded source is still present alongside the
overlays completed so far. -/
def overlayHeldAfter (sources : List String)
    (overlayOutcomes : List (Except String String)) (k : ℕ) : List String :=
  sources ++ (overlayLoop (overlayOutcomes.take k) []).1

/-- Temp-directory contents at the moment `process_merge_request` calls
`merge_clips` (Step 5, merge_service.py:232): the overlay stage completed
with all sources still present, and Step 4 (merge_service.py:227-229) has
just deleted the downloaded originals in bulk. -/
def mergeEntryFiles (sources overlays : List String) : List String :=
  cleanupFiles (sources ++ overlays) sources

/-- Translation of `MergeService.process_merge_request` (merge_service.py:194-251) with the
temp-directory state made explicit. Outcomes of the external calls
(downloads, per-clip overlays, the final merge) are supplied as parameters.
Returns the surfaced result and the residual temp files after the call
(excluding the final output handed to the caller on success, which the
caller then owns — it is listed in the state since it exists on disk).

Key modelled behaviors, each read off the source:
- validation failure touches no resources;
- on a download failure the `except` handler runs
  `cleanup_files(downloaded_paths)` and `cleanup_files(overlayed_paths)`
  with both lists still empty (the assignment on merge_service.py:222 never
  happened because `asyncio.gather` raised), so the successful downloads'
  files remain;
- on an overlay failure the inner handler (merge_service.py:106-110)
  removes the completed overlays and the outer handler removes the
  downloaded sources;
- on success Step 4 removes the sources after the whole overlay stage, the
  merge writes the output, and Step 6 removes the overlays;
- on a merge failure the outer handler removes the overlays (sources were
  already removed in Step 4). -/
def processMergeRequest (maxClips : ℕ) (configs : List ClipConfig)
    (downloadOutcomes overlayOutcomes : List (Except String String))
    (mergeOk : Bool) (outputPath : String) :
    Except MergeReqError String × List String :=
  match validateMergeRequest maxClips configs with
  | some e => (.error e, [])
  | none =>
      let files₀ := downloadedFiles downloadOutcomes
      match firstDownloadError downloadOutcomes with
      | some msg =>
          (.error (.downloadFailed msg), cleanupFiles (cleanupFiles files₀ []) [])
      | none =>
          let sources := files₀
          let (overlays, ovErr) := overlayLoop overlayOutcomes []
          let files₁ := sources ++ overlays
          match ovErr with
          | some msg =>
              (.error (.overlayFailed msg),
                cleanupFiles (cleanupFiles files₁ overlays) sources)
          | none =>
              let files₂ := cleanupFiles files₁ sources
              if mergeOk then
                (.ok outputPath, cleanupFiles (files₂ ++ [outputPath]) overlays)
              else
                (.error (.mergeFailed "FFmpeg merge failed"),
                  cleanupFiles files₂ overlays)

/-! ## Claims C1, C2, C3, C8 -/

/-- Claim C8: trimming is a no-op unless the target duration is strictly
smaller than the probed original; otherwise the cut window is
`(D-d, D)` for mode "start", `(0, d)` for "end" and `((D-d)/2, D-(D-d)/2)`
for "both", every window has length exactly `d`, and the trim command drops
audio (`-an`). -/
theorem trimVideo_policies (D d : ℚ) (mode input output : String) :
    (¬ d < D → trimInterval D d mode = none)
    ∧ (d < D →
        trimInterval D d "start" = some (D - d, D)
        ∧ trimInterval D d "end" = some (0, d)
        ∧ trimInterval D d "both" = some ((D - d) / 2, D - (D - d) / 2)
        ∧ (∀ s e : ℚ, "-an" ∈ trimArgs input output s e)
        ∧ (∀ s e : ℚ, trimInterval D d mode = some (s, e) → e - s = d)) := by
  constructor
  · intro h
    unfold trimInterval
    rw [if_pos (not_lt.1 h)]
  · intro h
    have hD : ¬ D ≤ d := not_le.2 h
    refine ⟨?_, ?_, ?_, ?_, ?_⟩
    · unfold trimInterval
      rw [if_neg hD, if_pos rfl]
    · unfold trimInterval
      rw [if_neg hD, if_neg (by decide : ¬("end" : String) = "start"),
        if_pos rfl]
    · unfold trimInterval
      rw [if_neg hD, if_neg (by decide : ¬("both" : String) = "start"),
        if_neg (by decide : ¬("both" : String) = "end")]
    · intro s e
      simp [trimArgs]
    · intro s e hse
      unfold trimInterval at hse
      rw [if_neg hD] at hse
      split_ifs at hse <;>
      · simp only [Option.some.injEq, Prod.mk.injEq] at hse
        obtain ⟨hs, he⟩ := hse
        subst hs
        subst he
        ring

/-- Witness for C8 at `D = 10`, `d = 4`. -/
theorem trimVideo_policies_witness :
    trimInterval 10 4 "start" = some (6, 10)
    ∧ trimInterval 10 4 "end" = some (0, 4)
    ∧ trimInterval 10 4 "both" = some (3, 7)
    ∧ trimInterval 10 12 "both" = none
    ∧ "-an" ∈ trimArgs "in.mp4" "out.mp4" 6 10 := by
  have h := trimVideo_policies 10 4 "both" "in.mp4" "out.mp4"
  have h2 := trimVideo_policies 10 12 "both" "in.mp4" "out.mp4"
  obtain ⟨hs, he, hb, han, _⟩ := h.2 (by norm_num)
  refine ⟨?_, ?_, ?_, h2.1 (by norm_num), han 6 10⟩
  · rw [hs]; norm_num
  · rw [he]
  · rw [hb]; norm_num

/-- Claim C1, counterexample: for a three-clip batch (whatever the clips'
audio presence — `merge_videos` never even consults it), the built directive
synthesizes zero silent-audio segments, not one; its concat is `v=1, a=0`
and only the video stream is mapped, so the audio of the clips that have it
is dropped. -/
theorem mergeDirective_mixed_audio_no_silent_segment :
    mergeVideos allFilesExist ["c1.mp4", "c2.mp4", "c3.mp4"] =
      .ok (mergeDirective ["c1.mp4", "c2.mp4", "c3.mp4"])
    ∧ (mergeDirective ["c1.mp4", "c2.mp4", "c3.mp4"]).filterComplex =
        [.normalize 0, .normalize 1, .normalize 2, .concat 3 1 0]
    ∧ countSilentAudio (mergeDirective ["c1.mp4", "c2.mp4", "c3.mp4"]) = 0
    ∧ ¬ countSilentAudio (mergeDirective ["c1.mp4", "c2.mp4", "c3.mp4"]) = 1
    ∧ (mergeDirective ["c1.mp4", "c2.mp4", "c3.mp4"]).maps = ["[v]"] := by
  exact ⟨rfl, rfl, rfl, by decide, rfl⟩

/-- Claim C1 (amended): for every merge batch the concatenation directive is
video-only regardless of audio presence — one normalization chain per input,
a single `concat` with `v = 1, a = 0`, only `[v]` mapped, and no
silent-audio segment is ever synthesized. -/
theorem mergeVideos_directive_video_only (fe : String → Bool)
    (paths : List String) (h2 : 2 ≤ paths.length)
    (hex : ∀ p ∈ paths, fe p = true) :
    mergeVideos fe paths = .ok (mergeDirective paths)
    ∧ countSilentAudio (mergeDirective paths) = 0
    ∧ FilterChain.concat paths.length 1 0 ∈ (mergeDirective paths).filterComplex
    ∧ (mergeDirective paths).maps = ["[v]"] := by
  refine ⟨?_, ?_, ?_, rfl⟩
  · unfold mergeVideos
    rw [if_neg (not_lt.2 h2)]
    have hfind : paths.find? (fun p => ! fe p) = none := by
      rw [List.find?_eq_none]
      intro p hp
      simp [hex p hp]
    rw [hfind]
  · unfold countSilentAudio mergeDirective
    rw [List.countP_eq_zero]
    intro c hc
    rcases List.mem_append.1 hc with hc | hc
    · rcases List.mem_map.1 hc with ⟨i, _, rfl⟩
      simp
    · rw [List.mem_singleton] at hc
      subst hc
      simp
  · unfold mergeDirective
    exact List.mem_append_right _ (List.mem_singleton.2 rfl)

/-- Witness for C1's amended theorem at a concrete two-clip batch. -/
theorem mergeVideos_directive_video_only_witness :
    mergeVideos allFilesExist ["a.mp4", "b.mp4"] =
      .ok (mergeDirective ["a.mp4", "b.mp4"])
    ∧ countSilentAudio (mergeDirective ["a.mp4", "b.mp4"]) = 0 := by
  have h := mergeVideos_directive_video_only allFilesExist ["a.mp4", "b.mp4"]
    (by decide) (by intro p hp; rfl)
  exact ⟨h.1, h.2.1⟩

/-- A concrete valid three-clip batch. -/
def c2Configs : List ClipConfig :=
  [{ url := "https://example.com/1.mp4", text := "one" },
   { url := "https://example.com/2.mp4", text := "two" },
   { url := "https://example.com/3.mp4", text := "three" }]

/-- Claim C2: when the second of three downloads fails, the two successful
downloads' files remain in the temp directory after the call (the except
handler cleans `downloaded_paths`, which is still empty because
`asyncio.gather` discarded the successful results), and the surfaced error
is `downloadFailed` with only the downloader's message — the identical error
surfaces whether the failing clip is the second or the third, so it does not
identify the failing clip's index. -/
theorem downloadFailure_leaves_files_and_unindexed_error :
    processMergeRequest 10 c2Configs
        [.ok "/tmp/clip1.mp4", .error "network error", .ok "/tmp/clip3.mp4"]
        [] true "/tmp/out.mp4" =
      (.error (.downloadFailed "network error"),
        ["/tmp/clip1.mp4", "/tmp/clip3.mp4"])
    ∧ (processMergeRequest 10 c2Configs
        [.ok "/tmp/clip1.mp4", .error "network error", .ok "/tmp/clip3.mp4"]
        [] true "/tmp/out.mp4").1 =
      (processMergeRequest 10 c2Configs
        [.ok "/tmp/clip1.mp4", .ok "/tmp/clip2.mp4", .error "network error"]
        [] true "/tmp/out.mp4").1 := by
  exact ⟨rfl, rfl⟩

/-- Claim C3, counterexample: in a two-clip batch with both overlays
succeeding, after clip 1's overlay is produced (clip 2 still pending) the
temp directory still holds downloaded source 1 — the loop frees nothing. -/
theorem overlayStage_holds_source_after_first_overlay :
    overlayHeldAfter ["/tmp/src1.mp4", "/tmp/src2.mp4"]
        [.ok "/tmp/ov1.mp4", .ok "/tmp/ov2.mp4"] 1 =
      ["/tmp/src1.mp4", "/tmp/src2.mp4", "/tmp/ov1.mp4"]
    ∧ "/tmp/src1.mp4" ∈ overlayHeldAfter ["/tmp/src1.mp4", "/tmp/src2.mp4"]
        [.ok "/tmp/ov1.mp4", .ok "/tmp/ov2.mp4"] 1 := by
  exact ⟨rfl, List.mem_cons_self _ _⟩

/-- Claim C3 (amended): downloaded sources are retained throughout the
overlaying stage — after any number of completed overlays every source is
still held — and they are freed in bulk by Step 4 only after the whole stage
succeeds, before concatenation: at merge entry the temp directory holds
exactly the overlay outputs and no downloaded source. -/
theorem overlayStage_sources_freed_in_bulk (sources : List String)
    (ovs : List (Except String String))
    (hdisj : ∀ f ∈ (overlayLoop ovs []).1, f ∉ sources) :
    (∀ k, ∀ s ∈ sources, s ∈ overlayHeldAfter sources ovs k)
    ∧ mergeEntryFiles sources (overlayLoop ovs []).1 = (overlayLoop ovs []).1
    ∧ (∀ s ∈ sources, s ∉ mergeEntryFiles sources (overlayLoop ovs []).1) := by
  have hmerge : mergeEntryFiles sources (overlayLoop ovs []).1 =
      (overlayLoop ovs []).1 := by
    unfold mergeEntryFiles cleanupFiles
    rw [List.filter_append]
    have h1 : sources.filter (fun f => ! sources.contains f) = [] := by
      rw [List.filter_eq_nil_iff]
      intro a ha
      simp [ha]
    have h2 : ((overlayLoop ovs []).1).filter
        (fun f => ! sources.contains f) = (overlayLoop ovs []).1 := by
      rw [List.filter_eq_self]
      intro a ha
      simpa using hdisj a ha
    rw [h1, h2, List.nil_append]
  refine ⟨fun k s hs => List.mem_append_left _ hs, hmerge, ?_⟩
  intro s hs hmem
  rw [hmerge] at hmem
  exact hdisj s hmem hs

/-- Witness for C3's amended theorem at the concrete two-clip batch. -/
theorem overlayStage_sources_freed_in_bulk_witness :
    "/tmp/src1.mp4" ∈ overlayHeldAfter ["/tmp/src1.mp4", "/tmp/src2.mp4"]
        [.ok "/tmp/ov1.mp4", .ok "/tmp/ov2.mp4"] 2
    ∧ mergeEntryFiles ["/tmp/src1.mp4", "/tmp/src2.mp4"]
        ["/tmp/ov1.mp4", "/tmp/ov2.mp4"] = ["/tmp/ov1.mp4", "/tmp/ov2.mp4"] := by
  have h := overlayStage_sources_freed_in_bulk
    ["/tmp/src1.mp4", "/tmp/src2.mp4"]
    [.ok "/tmp/ov1.mp4", .ok "/tmp/ov2.mp4"] (by decide)
  exact ⟨h.1 2 _ (List.mem_cons_self _ _), h.2.1⟩

end FfmpegSuite
